import Mathlib

/-!
Shallow embedding of the `fun` activation-function library.

The repository ships two variants of the header `fun.hpp`:

* a std-library-backed variant whose activation functions call `std::exp`,
  `std::tanh`, `std::log`; it is modelled here over `ℝ` in the namespace
  `funStd`, with the C math functions modelled by `Real.exp`, `Real.tanh`,
  `Real.log`;
* a self-contained variant built on the compile-time numeric kernel
  `constexpr_ops` (Taylor series for `exp`/`sin`/`cos`, Newton iteration for
  `sqrt`, Halley-Newton iteration for `ln`); since every kernel routine is a
  finite composition of field operations, that variant is modelled exactly
  over `ℚ` in the namespaces `constexpr_ops` and `funC`.

Machine-integer effects that the claims depend on are modelled explicitly:
`unsigned int` arithmetic wraps modulo `2 ^ 32` (the width used by every
mainstream platform this code targets), and the `while (--n != 0)` loops of
`constexpr_ops::pow` / `constexpr_ops::factorial` decrement before testing,
so a zero argument wraps around.  Where unqualified C++ name lookup makes a
call resolve to something other than the same-named library function (the
self-recursive `fun::derivative::tanh`, the `softplus` call inside the first
variant's `fun::derivative::mish`, the C-library `tanh` inside both `gelu`
definitions), the model follows the lookup result and the accompanying
comment records it.
-/

namespace constexpr_ops

/-- Mathematical constant π, the exact rational value of the 50-decimal
literal in `constexpr_ops.hpp`. -/
def PI : ℚ := 3.14159265358979323846264338327950288419716939937510

/-- Loop of `constexpr_ops::pow` after its iteration count is resolved: the C
body `res *= x` runs once per fuel unit, with `res` starting at `x`. -/
def powLoop (x : ℚ) : ℚ → ℕ → ℚ
  | res, 0 => res
  | res, k + 1 => powLoop x (res * x) k

/-- Model of `constexpr_ops::pow(x, exp)`.  The C loop `while (--exp != 0)
res *= x;` decrements the 32-bit `unsigned int exp` before testing, so the
body runs `(exp - 1) mod 2 ^ 32` times; in particular `exp = 0` wraps to
`2 ^ 32 - 1` iterations. -/
def pow (x : ℚ) (e : ℕ) : ℚ := powLoop x x ((e + (2 ^ 32 - 1)) % 2 ^ 32)

/-- Loop of `constexpr_ops::factorial`, with the counter already decremented
once per step: at counter `k + 1` the C code computes `--num`, giving `k`;
it stops if `k = 0` and otherwise multiplies the 32-bit accumulator by `k`
(wrapping modulo `2 ^ 32`). -/
def factLoop : ℕ → ℕ → ℕ
  | res, 0 => res
  | res, k + 1 => if k = 0 then res else factLoop (res * k % 2 ^ 32) k

/-- Model of `constexpr_ops::factorial(num)` for a 32-bit `unsigned int`.
For `num = 0` the C loop underflows the counter and multiplies the
accumulator — which starts at `res = num = 0` — around the whole wheel, so
the result is `0`. -/
def factorial (num : ℕ) : ℕ := if num = 0 then 0 else factLoop num num

/-- Model of `constexpr_ops::exp`: the fixed 12-term Taylor expansion of the
exponential around 0, written term by term exactly as in the source. -/
def exp (x : ℚ) : ℚ :=
  1 + x + pow x 2 / (factorial 2 : ℚ) + pow x 3 / (factorial 3 : ℚ) +
    pow x 4 / (factorial 4 : ℚ) + pow x 5 / (factorial 5 : ℚ) +
    pow x 6 / (factorial 6 : ℚ) + pow x 7 / (factorial 7 : ℚ) +
    pow x 8 / (factorial 8 : ℚ) + pow x 9 / (factorial 9 : ℚ) +
    pow x 10 / (factorial 10 : ℚ) + pow x 11 / (factorial 11 : ℚ) +
    pow x 12 / (factorial 12 : ℚ)

/-- Model of `constexpr_ops::sin`: Taylor expansion to degree 13.  Note that
`factorial 13` overflows 32-bit arithmetic exactly as the C code does. -/
def sin (x : ℚ) : ℚ :=
  x - pow x 3 / (factorial 3 : ℚ) + pow x 5 / (factorial 5 : ℚ) -
    pow x 7 / (factorial 7 : ℚ) + pow x 9 / (factorial 9 : ℚ) -
    pow x 11 / (factorial 11 : ℚ) + pow x 13 / (factorial 13 : ℚ)

/-- Model of `constexpr_ops::cos`: Taylor expansion to degree 12. -/
def cos (x : ℚ) : ℚ :=
  1 - pow x 2 / (factorial 2 : ℚ) + pow x 4 / (factorial 4 : ℚ) -
    pow x 6 / (factorial 6 : ℚ) + pow x 8 / (factorial 8 : ℚ) -
    pow x 10 / (factorial 10 : ℚ) + pow x 12 / (factorial 12 : ℚ)

/-- Model of `constexpr_ops::cosh`, composed from `exp` as in the source. -/
def cosh (x : ℚ) : ℚ := (exp x + exp (-x)) / 2

/-- Model of `constexpr_ops::tanh`, composed from `exp` as in the source. -/
def tanh (x : ℚ) : ℚ := (exp x - exp (-x)) / (exp x + exp (-x))

/-- Loop of `constexpr_ops::sqrt`: one Newton step `res = 0.5 * (res + x /
res)` per fuel unit. -/
def sqrtLoop (x : ℚ) : ℚ → ℕ → ℚ
  | res, 0 => res
  | res, k + 1 => sqrtLoop x (0.5 * (res + x / res)) k

/-- Model of `constexpr_ops::sqrt(x, max_iter)`: Newton's method seeded at
`res = x`; the source default for `max_iter` is 15. -/
def sqrt (x : ℚ) (maxIter : ℕ) : ℚ := sqrtLoop x x maxIter

/-- One refinement step of `constexpr_ops::ln`:
`z = y + 2 * (x - exp(y)) / (x + exp(y))`. -/
def lnStep (x z : ℚ) : ℚ := z + 2 * (x - exp z) / (x + exp z)

/-- Loop of `constexpr_ops::ln`.  The C `do { … } while (|y - z| > epsilon)`
loop has no iteration cap; the fuel argument makes the model total, with
`none` meaning the loop has not converged within the given number of
iterations. -/
def lnLoop (x epsilon : ℚ) : ℚ → ℕ → Option ℚ
  | _, 0 => none
  | z, f + 1 =>
    let y := lnStep x z
    if epsilon < |z - y| then lnLoop x epsilon y f else some y

/-- Model of `constexpr_ops::ln(x, epsilon)` with explicit fuel; the source
default for `epsilon` is `1e-5` and the seed is `y = x - 1`. -/
def ln (x epsilon : ℚ) (fuel : ℕ) : Option ℚ := lnLoop x epsilon (x - 1) fuel

end constexpr_ops

namespace funStd

/-- Model of the std-variant `fun::sigmoid`: `expval = std::exp(z)` and a
branch on the sign of `z`, exactly as in the source. -/
noncomputable def sigmoid (z : ℝ) : ℝ :=
  if z < 0 then Real.exp z / (1 + Real.exp z) else 1 / (1 + Real.exp (-z))

/-- Model of the std-variant `fun::softmax` (the `std::array` and
`std::vector` overloads share this code): the exponential sum is accumulated
left to right from `0`, then every element is replaced by `exp(val) /
expsum` in place, preserving length and order. -/
noncomputable def softmax (zs : List ℝ) : List ℝ :=
  let expsum := zs.foldl (fun lhs rhs => lhs + Real.exp rhs) 0
  zs.map (fun val => Real.exp val / expsum)

/-- Model of `fun::relu`. -/
noncomputable def relu (z : ℝ) : ℝ := if z < 0 then 0 else z

/-- Model of `fun::leaky_relu`. -/
noncomputable def leaky_relu (z : ℝ) : ℝ := if z < 0 then 1e-2 * z else z

/-- Model of `fun::parametric_relu`. -/
noncomputable def parametric_relu (z a : ℝ) : ℝ := if z < 0 then a * z else z

/-- Model of the std-variant `fun::gelu` with its hard-coded constants
`0.797885` and `0.35677`.  At this point of the header `fun::tanh` is not
yet declared, so the unqualified `tanh` call resolves to the C library
`tanh`, modelled by `Real.tanh` (the later `fun::tanh` is itself
`std::tanh`, so the resolution makes no semantic difference here). -/
noncomputable def gelu (z : ℝ) : ℝ :=
  0.5 * z * (1 + Real.tanh (0.797885 * z + 0.35677 * (z * z * z)))

/-- Model of `fun::elu`. -/
noncomputable def elu (z a : ℝ) : ℝ := if z < 0 then a * (Real.exp z - 1) else z

/-- Model of `fun::softplus`. -/
noncomputable def softplus (z : ℝ) : ℝ := Real.log (1 + Real.exp z)

/-- Model of `fun::binary_step` (the `int` results `0` and `1` are read as
real numbers). -/
noncomputable def binary_step (z : ℝ) : ℝ := if z < 0 then 0 else 1

/-- Model of `fun::tanh`, which is `std::tanh`. -/
noncomputable def tanh (z : ℝ) : ℝ := Real.tanh z

/-- Model of `fun::gaussian`: `std::exp(-z * z)`. -/
noncomputable def gaussian (z : ℝ) : ℝ := Real.exp (-z * z)

namespace derivative

/-- Model of `fun::derivative::sigmoid`: reuses the forward sigmoid. -/
noncomputable def sigmoid (z : ℝ) : ℝ := funStd.sigmoid z * (1 - funStd.sigmoid z)

/-- Model of `fun::derivative::softplus`, which returns `fun::sigmoid(z)`. -/
noncomputable def softplus (z : ℝ) : ℝ := funStd.sigmoid z

/-- Model of the std-variant `fun::derivative::mish` (marked `TODO` in the
source).  Its body is `z * tanh(softplus(z))`: unqualified lookup finds
`fun::derivative::softplus` — that is, `fun::sigmoid` — for `softplus`, and
the C library `tanh` for `tanh` (`fun::derivative::tanh` is declared only
later in the header). -/
noncomputable def mish (z : ℝ) : ℝ := z * Real.tanh (funStd.derivative.softplus z)

/-- Model of the std-variant `fun::derivative::tanh`.  Inside namespace
`fun::derivative` the unqualified call `tanh(z)` in its body resolves to the
declaration being defined, so the function calls itself on the same argument
before doing any arithmetic: no call can return.  The fuel argument counts
the remaining call depth; `none` models the absent result. -/
def tanhFuel : ℕ → ℝ → Option ℝ
  | 0, _ => none
  | f + 1, z =>
    match tanhFuel f z with
    | none => none
    | some val => some (1 - val * val)

end derivative

end funStd

namespace funC

/-- Model of the constexpr-variant `fun::sigmoid`, built on the kernel
`constexpr_ops::exp`. -/
def sigmoid (z : ℚ) : ℚ :=
  if z < 0 then constexpr_ops.exp z / (1 + constexpr_ops.exp z)
  else 1 / (1 + constexpr_ops.exp (-z))

/-- Model of the constexpr-variant `fun::relu`. -/
def relu (z : ℚ) : ℚ := if z < 0 then 0 else z

/-- Model of the constexpr-variant `fun::binary_step`. -/
def binary_step (z : ℚ) : ℚ := if z < 0 then 0 else 1

/-- Model of the constexpr-variant `fun::tanh`, which is
`constexpr_ops::tanh`. -/
def tanh (z : ℚ) : ℚ := constexpr_ops.tanh z

/-- Model of the constexpr-variant `fun::gaussian`:
`constexpr_ops::exp(-z * z)`. -/
def gaussian (z : ℚ) : ℚ := constexpr_ops.exp (-z * z)

/-- Model of the constexpr-variant `fun::gelu`:
`0.5 * z * (1 + tanh(constexpr_ops::sqrt(2 / constexpr_ops::PI) * (z +
0.044715 * z * z * z)))`.  The kernel square root (with its default 15
Newton iterations) is an exact rational and is cast into `ℝ`; the
unqualified `tanh` resolves to the C library `tanh` (`fun::tanh` is declared
only later in this header), modelled by `Real.tanh`. -/
noncomputable def gelu (z : ℝ) : ℝ :=
  0.5 * z *
    (1 + Real.tanh (((constexpr_ops.sqrt (2 / constexpr_ops.PI) 15 : ℚ) : ℝ) *
      (z + 0.044715 * (z * z * z))))

namespace derivative

/-- Model of the constexpr-variant `fun::derivative::tanh`: here the body
explicitly computes `val = fun::tanh(z)` with the kernel `tanh` (declared
earlier in the header) and returns `1 - val * val`. -/
def tanh (z : ℚ) : ℚ := 1 - funC.tanh z * funC.tanh z

/-- Model of the constexpr-variant `fun::derivative::mish`, with `omega`,
`tmp` and `delta` exactly as in the source. -/
def mish (z : ℚ) : ℚ :=
  let omega := constexpr_ops.exp (3 * z) + 4 * constexpr_ops.exp (2 * z) +
    (4 * z + 6) * constexpr_ops.exp z + 4 * (z + 1)
  let tmp := constexpr_ops.exp z + 1
  let delta := tmp * tmp + 1
  constexpr_ops.exp z * omega / (delta * delta)

/-- Model of the constexpr-variant `fun::derivative::gelu`: `cube` and `tmp`
as in the source; `tanh` here resolves to `fun::tanh`, the kernel `tanh`,
and the division is by `constexpr_ops::cosh(tmp)`. -/
def gelu (z : ℚ) : ℚ :=
  let cube := z * z * z
  let tmp := 0.0356774 * cube + 0.797885 * z
  0.5 * funC.tanh tmp + (0.0535161 * cube + 0.398942 * z) / constexpr_ops.cosh tmp + 0.5

end derivative

end funC

/-- Unrolling `constexpr_ops.powLoop`: it multiplies the accumulator by `x`
once per fuel unit. -/
theorem powLoop_eq (x : ℚ) : ∀ (k : ℕ) (res : ℚ),
    constexpr_ops.powLoop x res k = res * x ^ k := by
  intro k
  induction k with
  | zero => intro res; simp [constexpr_ops.powLoop]
  | succ n ih => intro res; rw [constexpr_ops.powLoop, ih]; ring

/-- On its documented domain `1 ≤ n < 2 ^ 32`, `constexpr_ops::pow` computes
the mathematical power `x ^ n`. -/
theorem pow_eq (x : ℚ) (n : ℕ) (h1 : 1 ≤ n) (h2 : n < 2 ^ 32) :
    constexpr_ops.pow x n = x ^ n := by
  have hmod : (n + (2 ^ 32 - 1)) % 2 ^ 32 = n - 1 := by omega
  have hn : n - 1 + 1 = n := by omega
  rw [constexpr_ops.pow, hmod, powLoop_eq, ← pow_succ', hn]

/-- With base `0`, `constexpr_ops::pow` returns `0` for every exponent (the
accumulator starts at the base). -/
theorem pow_zero_base (n : ℕ) : constexpr_ops.pow 0 n = 0 := by
  rw [constexpr_ops.pow, powLoop_eq]
  ring

/-- Polynomial normal form of the kernel exponential: `constexpr_ops::exp`
is exactly the degree-12 Taylor polynomial of the exponential at 0. -/
theorem exp_poly (x : ℚ) :
    constexpr_ops.exp x =
      1 + x + x ^ 2 / 2 + x ^ 3 / 6 + x ^ 4 / 24 + x ^ 5 / 120 + x ^ 6 / 720 +
        x ^ 7 / 5040 + x ^ 8 / 40320 + x ^ 9 / 362880 + x ^ 10 / 3628800 +
        x ^ 11 / 39916800 + x ^ 12 / 479001600 := by
  have f2 : constexpr_ops.factorial 2 = 2 := by decide
  have f3 : constexpr_ops.factorial 3 = 6 := by decide
  have f4 : constexpr_ops.factorial 4 = 24 := by decide
  have f5 : constexpr_ops.factorial 5 = 120 := by decide
  have f6 : constexpr_ops.factorial 6 = 720 := by decide
  have f7 : constexpr_ops.factorial 7 = 5040 := by decide
  have f8 : constexpr_ops.factorial 8 = 40320 := by decide
  have f9 : constexpr_ops.factorial 9 = 362880 := by decide
  have f10 : constexpr_ops.factorial 10 = 3628800 := by decide
  have f11 : constexpr_ops.factorial 11 = 39916800 := by decide
  have f12 : constexpr_ops.factorial 12 = 479001600 := by decide
  rw [constexpr_ops.exp, f2, f3, f4, f5, f6, f7, f8, f9, f10, f11, f12,
    pow_eq x 2 (by norm_num) (by norm_num), pow_eq x 3 (by norm_num) (by norm_num),
    pow_eq x 4 (by norm_num) (by norm_num), pow_eq x 5 (by norm_num) (by norm_num),
    pow_eq x 6 (by norm_num) (by norm_num), pow_eq x 7 (by norm_num) (by norm_num),
    pow_eq x 8 (by norm_num) (by norm_num), pow_eq x 9 (by norm_num) (by norm_num),
    pow_eq x 10 (by norm_num) (by norm_num), pow_eq x 11 (by norm_num) (by norm_num),
    pow_eq x 12 (by norm_num) (by norm_num)]
  norm_num

/-- Value of the kernel exponential at 0. -/
theorem exp_zero_eq : constexpr_ops.exp 0 = 1 := by
  rw [exp_poly]
  norm_num

/-- Product identity for the truncated exponential: the odd-degree cross
terms cancel pairwise and only even powers with positive coefficients
remain. -/
theorem exp_mul_exp_neg (x : ℚ) :
    constexpr_ops.exp x * constexpr_ops.exp (-x) =
      1 + x ^ 14 / 3353011200 + x ^ 16 / 22992076800 + x ^ 18 / 517321728000 +
        x ^ 20 / 24141680640000 + x ^ 22 / 1912021106688000 +
        x ^ 24 / 229442532802560000 := by
  rw [exp_poly, exp_poly]
  ring

/-- The product `exp x * exp (-x)` of truncated exponentials is at least 1. -/
theorem one_le_exp_mul_exp_neg (x : ℚ) :
    1 ≤ constexpr_ops.exp x * constexpr_ops.exp (-x) := by
  rw [exp_mul_exp_neg]
  have h : 0 ≤ x ^ 14 / 3353011200 + x ^ 16 / 22992076800 + x ^ 18 / 517321728000 +
      x ^ 20 / 24141680640000 + x ^ 22 / 1912021106688000 +
      x ^ 24 / 229442532802560000 := by positivity
  linarith

/-- For nonnegative arguments every term of the truncated exponential is
nonnegative, so the value is at least 1. -/
theorem one_le_exp_of_nonneg (x : ℚ) (hx : 0 ≤ x) : 1 ≤ constexpr_ops.exp x := by
  rw [exp_poly]
  have h2 : 0 ≤ x ^ 2 := by positivity
  have h3 : 0 ≤ x ^ 3 := by positivity
  have h4 : 0 ≤ x ^ 4 := by positivity
  have h5 : 0 ≤ x ^ 5 := by positivity
  have h6 : 0 ≤ x ^ 6 := by positivity
  have h7 : 0 ≤ x ^ 7 := by positivity
  have h8 : 0 ≤ x ^ 8 := by positivity
  have h9 : 0 ≤ x ^ 9 := by positivity
  have h10 : 0 ≤ x ^ 10 := by positivity
  have h11 : 0 ≤ x ^ 11 := by positivity
  have h12 : 0 ≤ x ^ 12 := by positivity
  linarith

/-- The kernel exponential is positive on all of `ℚ`: for nonnegative
arguments every Taylor term is nonnegative, and for negative arguments the
product identity `exp x * exp (-x) ≥ 1` transfers positivity from `exp (-x)`. -/
theorem exp_pos (x : ℚ) : 0 < constexpr_ops.exp x := by
  rcases le_or_lt 0 x with hx | hx
  · linarith [one_le_exp_of_nonneg x hx]
  · have hneg : (1 : ℚ) ≤ constexpr_ops.exp (-x) := one_le_exp_of_nonneg (-x) (by linarith)
    have hprod := one_le_exp_mul_exp_neg x
    nlinarith

/-- Polynomial normal form of the kernel `cosh`: the odd Taylor terms of
`exp x` and `exp (-x)` cancel, leaving 1 plus even powers. -/
theorem cosh_poly (x : ℚ) :
    constexpr_ops.cosh x =
      1 + x ^ 2 / 2 + x ^ 4 / 24 + x ^ 6 / 720 + x ^ 8 / 40320 +
        x ^ 10 / 3628800 + x ^ 12 / 479001600 := by
  rw [constexpr_ops.cosh, exp_poly, exp_poly]
  ring

/-- The kernel `cosh` is bounded below by 1 everywhere. -/
theorem one_le_cosh (x : ℚ) : 1 ≤ constexpr_ops.cosh x := by
  rw [cosh_poly]
  have h : 0 ≤ x ^ 2 / 2 + x ^ 4 / 24 + x ^ 6 / 720 + x ^ 8 / 40320 +
      x ^ 10 / 3628800 + x ^ 12 / 479001600 := by positivity
  linarith

/-- The constexpr-variant sigmoid lies strictly between 0 and 1: both
branches divide a positive quantity by a strictly larger positive one,
thanks to the positivity of the truncated exponential. -/
theorem sigmoidC_bounds (q : ℚ) : 0 < funC.sigmoid q ∧ funC.sigmoid q < 1 := by
  rw [funC.sigmoid]
  split_ifs with h
  · have hE := exp_pos q
    constructor
    · exact div_pos hE (by linarith)
    · rw [div_lt_one (by linarith)]
      linarith
  · have hE := exp_pos (-q)
    constructor
    · exact div_pos one_pos (by linarith)
    · rw [div_lt_one (by linarith)]
      linarith

/-- Branch-free form of the std-variant sigmoid: both branches compute
`1 / (1 + exp (-z))` exactly. -/
theorem sigmoidR_eq (z : ℝ) : funStd.sigmoid z = 1 / (1 + Real.exp (-z)) := by
  rw [funStd.sigmoid]
  split_ifs with h
  · have h1 : Real.exp z * Real.exp (-z) = 1 := by
      rw [← Real.exp_add]
      simp
    have h2 : (0 : ℝ) < 1 + Real.exp z := by positivity
    have h3 : (0 : ℝ) < 1 + Real.exp (-z) := by positivity
    field_simp
    linear_combination h1
  · rfl

/-- The std-variant sigmoid lies strictly between 0 and 1. -/
theorem sigmoidR_bounds (z : ℝ) : 0 < funStd.sigmoid z ∧ funStd.sigmoid z < 1 := by
  rw [sigmoidR_eq]
  have h := Real.exp_pos (-z)
  constructor
  · positivity
  · rw [div_lt_one (by positivity)]
    linarith

/-- The std-variant sigmoid is strictly increasing. -/
theorem sigmoidR_strictMono : StrictMono funStd.sigmoid := by
  intro a b hab
  rw [sigmoidR_eq, sigmoidR_eq]
  have hb : (0 : ℝ) < 1 + Real.exp (-b) := by positivity
  have hlt : Real.exp (-b) < Real.exp (-a) := Real.exp_lt_exp.mpr (by linarith)
  exact div_lt_div_of_pos_left one_pos hb (by linarith)

/-- The left fold accumulating `exp` starting from `a` is `a` plus the sum
of the pointwise exponentials. -/
theorem foldl_add_exp (l : List ℝ) : ∀ a : ℝ,
    l.foldl (fun lhs rhs => lhs + Real.exp rhs) a = a + (l.map Real.exp).sum := by
  induction l with
  | nil => intro a; simp
  | cons x t ih =>
    intro a
    rw [List.foldl_cons, ih, List.map_cons, List.sum_cons]
    ring

/-- The exponential sum over a non-empty list is positive. -/
theorem map_exp_sum_pos (l : List ℝ) (h : l ≠ []) : 0 < (l.map Real.exp).sum := by
  cases l with
  | nil => exact absurd rfl h
  | cons x t =>
    have ht : 0 ≤ (t.map Real.exp).sum := by
      apply List.sum_nonneg
      intro y hy
      rw [List.mem_map] at hy
      obtain ⟨z, _, rfl⟩ := hy
      exact (Real.exp_pos z).le
    rw [List.map_cons, List.sum_cons]
    have := Real.exp_pos x
    linarith

/-- The real hyperbolic tangent is strictly increasing. -/
theorem real_tanh_lt_tanh (a b : ℝ) (hab : a < b) : Real.tanh a < Real.tanh b := by
  rw [Real.tanh_eq_sinh_div_cosh, Real.tanh_eq_sinh_div_cosh,
    div_lt_div_iff (Real.cosh_pos a) (Real.cosh_pos b)]
  have h := Real.sinh_sub b a
  have hpos : 0 < Real.sinh (b - a) := Real.sinh_pos_iff.mpr (by linarith)
  rw [h] at hpos
  linarith

/-- One step of the Newton loop of `constexpr_ops::sqrt`. -/
theorem sqrtLoop_succ (x res : ℚ) (k : ℕ) :
    constexpr_ops.sqrtLoop x res (k + 1) =
      constexpr_ops.sqrtLoop x (0.5 * (res + x / res)) k := rfl

/-- Invariants of the Newton loop for `x > 0`: once the iterate is positive
with square at least `x`, it stays so, and the loop never increases it. -/
theorem sqrtLoop_bounds (x : ℚ) (hx : 0 < x) : ∀ (k : ℕ) (res : ℚ),
    0 < res → x ≤ res ^ 2 →
      0 < constexpr_ops.sqrtLoop x res k ∧
        x ≤ constexpr_ops.sqrtLoop x res k ^ 2 ∧
        constexpr_ops.sqrtLoop x res k ≤ res := by
  intro k
  induction k with
  | zero =>
    intro res h1 h2
    exact ⟨h1, h2, le_rfl⟩
  | succ n ih =>
    intro res h1 h2
    rw [sqrtLoop_succ]
    have h1' : res ≠ 0 := ne_of_gt h1
    have hdiv : 0 < x / res := div_pos hx h1
    have hnext_pos : 0 < 0.5 * (res + x / res) := by nlinarith
    have hnext_sq : x ≤ (0.5 * (res + x / res)) ^ 2 := by
      have key : (0.5 * (res + x / res)) ^ 2 - x = ((res ^ 2 - x) / (2 * res)) ^ 2 := by
        field_simp
        ring
      nlinarith [sq_nonneg ((res ^ 2 - x) / (2 * res))]
    have hnext_le : 0.5 * (res + x / res) ≤ res := by
      have hd : x / res ≤ res := (div_le_iff h1).mpr (by nlinarith)
      linarith
    obtain ⟨p1, p2, p3⟩ := ih (0.5 * (res + x / res)) hnext_pos hnext_sq
    exact ⟨p1, p2, le_trans p3 hnext_le⟩

/-- After its 15 Newton iterations seeded at 4, the kernel square root of 4
lies between 2 and the fourth iterate `21523361 / 10761680 = 2 + 1/10761680`. -/
theorem sqrt_four_bounds :
    2 ≤ constexpr_ops.sqrt 4 15 ∧ constexpr_ops.sqrt 4 15 ≤ 21523361 / 10761680 := by
  have s1 : constexpr_ops.sqrtLoop 4 4 15 = constexpr_ops.sqrtLoop 4 (5 / 2) 14 := by
    rw [show (15 : ℕ) = 14 + 1 from rfl, sqrtLoop_succ]
    norm_num
  have s2 : constexpr_ops.sqrtLoop 4 (5 / 2) 14 = constexpr_ops.sqrtLoop 4 (41 / 20) 13 := by
    rw [show (14 : ℕ) = 13 + 1 from rfl, sqrtLoop_succ]
    norm_num
  have s3 : constexpr_ops.sqrtLoop 4 (41 / 20) 13 =
      constexpr_ops.sqrtLoop 4 (3281 / 1640) 12 := by
    rw [show (13 : ℕ) = 12 + 1 from rfl, sqrtLoop_succ]
    norm_num
  have s4 : constexpr_ops.sqrtLoop 4 (3281 / 1640) 12 =
      constexpr_ops.sqrtLoop 4 (21523361 / 10761680) 11 := by
    rw [show (12 : ℕ) = 11 + 1 from rfl, sqrtLoop_succ]
    norm_num
  have e : constexpr_ops.sqrt 4 15 = constexpr_ops.sqrtLoop 4 (21523361 / 10761680) 11 := by
    rw [constexpr_ops.sqrt, s1, s2, s3, s4]
  obtain ⟨p1, p2, p3⟩ := sqrtLoop_bounds 4 (by norm_num) 11 (21523361 / 10761680)
    (by norm_num) (by norm_num)
  rw [e]
  refine ⟨by nlinarith, p3⟩

/-- The kernel square root of `2 / π` (with the library's rational π) stays
below `41 / 50`: the first Newton iterate is `(2/π + 1) / 2 < 0.82` and the
loop never increases thereafter. -/
theorem sqrt_two_div_pi_le :
    constexpr_ops.sqrt (2 / constexpr_ops.PI) 15 ≤ 41 / 50 := by
  have hq_pos : 0 < 2 / constexpr_ops.PI := by
    rw [constexpr_ops.PI]
    norm_num
  have hq_ne : 2 / constexpr_ops.PI ≠ 0 := ne_of_gt hq_pos
  have harg : (0.5 : ℚ) * (2 / constexpr_ops.PI + 2 / constexpr_ops.PI / (2 / constexpr_ops.PI)) =
      (2 / constexpr_ops.PI + 1) / 2 := by
    rw [div_self hq_ne]
    ring
  have e : constexpr_ops.sqrt (2 / constexpr_ops.PI) 15 =
      constexpr_ops.sqrtLoop (2 / constexpr_ops.PI) ((2 / constexpr_ops.PI + 1) / 2) 14 := by
    rw [constexpr_ops.sqrt, show (15 : ℕ) = 14 + 1 from rfl, sqrtLoop_succ, harg]
  obtain ⟨p1, p2, p3⟩ := sqrtLoop_bounds (2 / constexpr_ops.PI) hq_pos 14
    ((2 / constexpr_ops.PI + 1) / 2) (by linarith)
    (by nlinarith [sq_nonneg (2 / constexpr_ops.PI - 1)])
  rw [e]
  refine le_trans p3 ?_
  rw [constexpr_ops.PI]
  norm_num

/-- C1: for every non-empty ordered sequence of scalars `zs`, `softmax zs`
returns a sequence of the same length as `zs`, in the same element order,
with element `i` equal to `exp zs[i]` divided by the sum of `exp zs[j]` over
all `j`, and the output elements sum to 1 (exactly, in the real model, hence
within any tolerance such as `1e-6`). -/
theorem C1_softmax_spec (zs : List ℝ) (h : zs ≠ []) :
    funStd.softmax zs = zs.map (fun v => Real.exp v / (zs.map Real.exp).sum) ∧
      (funStd.softmax zs).length = zs.length ∧
      (∀ i, i < zs.length →
        (funStd.softmax zs).getD i 0 = Real.exp (zs.getD i 0) / (zs.map Real.exp).sum) ∧
      (funStd.softmax zs).sum = 1 := by
  have hpos := map_exp_sum_pos zs h
  have hmap : funStd.softmax zs = zs.map (fun v => Real.exp v / (zs.map Real.exp).sum) := by
    rw [funStd.softmax, foldl_add_exp]
    norm_num
  refine ⟨hmap, ?_, ?_, ?_⟩
  · rw [hmap, List.length_map]
  · intro i hi
    have hi' : i < (zs.map (fun v => Real.exp v / (zs.map Real.exp).sum)).length := by
      rw [List.length_map]
      exact hi
    rw [hmap, List.getD_eq_getElem _ _ hi', List.getD_eq_getElem _ _ hi, List.getElem_map]
  · rw [hmap]
    have hsum : (zs.map (fun v => Real.exp v / (zs.map Real.exp).sum)).sum =
        (zs.map Real.exp).sum * ((zs.map Real.exp).sum)⁻¹ := by
      simp only [div_eq_mul_inv]
      rw [List.sum_map_mul_right]
    rw [hsum, mul_inv_cancel₀ (ne_of_gt hpos)]

/-- Witness for C1 at the concrete input `[0, 1]`. -/
theorem C1_softmax_witness :
    (([0, 1] : List ℝ) ≠ []) ∧ (funStd.softmax [0, 1]).sum = 1 ∧
      (funStd.softmax [0, 1]).length = ([0, 1] : List ℝ).length :=
  ⟨by simp, (C1_softmax_spec [0, 1] (by simp)).2.2.2, (C1_softmax_spec [0, 1] (by simp)).2.1⟩

/-- C2 counterexample: the constexpr-variant sigmoid is not monotonically
increasing — its 12-term Taylor `exp` decreases on part of the negative
axis, so `sigmoid (-9/2) < sigmoid (-5)` although `-5 < -9/2`. -/
theorem C2_sigmoid_counterexample :
    (-5 : ℚ) < -9 / 2 ∧ funC.sigmoid (-9 / 2) < funC.sigmoid (-5) := by
  constructor
  · norm_num
  · norm_num [funC.sigmoid, exp_poly]

/-- C2 (amended): `sigmoid 0 = 1/2` in both variants; the std variant is
strictly increasing and bounded in `(0, 1)` for every input; the
constexpr-variant is likewise bounded in `(0, 1)` for every input (but is
not monotone, per the counterexample). -/
theorem C2_sigmoid_amended :
    funStd.sigmoid 0 = 1 / 2 ∧ StrictMono funStd.sigmoid ∧
      (∀ z : ℝ, 0 < funStd.sigmoid z ∧ funStd.sigmoid z < 1) ∧
      funC.sigmoid 0 = 1 / 2 ∧ (∀ q : ℚ, 0 < funC.sigmoid q ∧ funC.sigmoid q < 1) := by
  refine ⟨?_, sigmoidR_strictMono, sigmoidR_bounds, ?_, sigmoidC_bounds⟩
  · rw [sigmoidR_eq, neg_zero, Real.exp_zero]
    norm_num
  · rw [funC.sigmoid]
    norm_num [exp_zero_eq]

/-- Witness for C2 applying the monotonicity and bound parts at concrete
inputs. -/
theorem C2_sigmoid_witness :
    funStd.sigmoid (-1) < funStd.sigmoid 1 ∧ 0 < funC.sigmoid 3 :=
  ⟨C2_sigmoid_amended.2.1 (by norm_num : (-1 : ℝ) < 1), (C2_sigmoid_amended.2.2.2.2 3).1⟩

/-- C3: the std-variant `fun::derivative::tanh` recurses on itself and never
returns (`none` at every call depth), while the constexpr-variant computes
`1 - tanh(z)²` with the library's forward `tanh`, as the claim states. -/
theorem C3_dtanh_self_recursion :
    (∀ (fuel : ℕ) (z : ℝ), funStd.derivative.tanhFuel fuel z = none) ∧
      (∀ z : ℚ, funC.derivative.tanh z = 1 - funC.tanh z ^ 2) := by
  constructor
  · intro fuel
    induction fuel with
    | zero => intro z; rfl
    | succ n ih =>
      intro z
      simp [funStd.derivative.tanhFuel, ih]
  · intro z
    rw [funC.derivative.tanh]
    ring

/-- C4 counterexample: at `z = 1` the std-variant `gelu` differs from the
claimed formula `0.5·z·(1 + tanh(sqrt(2/π)·(z + 0.044715·z³)))` built from
the kernel square root: the code's hard-coded cubic coefficient `0.35677` is
ten times `sqrt(2/π)·0.044715`. -/
theorem C4_gelu_counterexample :
    funStd.gelu 1 ≠
      0.5 * 1 * (1 + Real.tanh (((constexpr_ops.sqrt (2 / constexpr_ops.PI) 15 : ℚ) : ℝ) *
        (1 + 0.044715 * 1 ^ 3))) := by
  have hs : ((constexpr_ops.sqrt (2 / constexpr_ops.PI) 15 : ℚ) : ℝ) ≤ 41 / 50 := by
    refine le_trans (Rat.cast_le.mpr sqrt_two_div_pi_le) ?_
    norm_num
  have hargs : ((constexpr_ops.sqrt (2 / constexpr_ops.PI) 15 : ℚ) : ℝ) *
      (1 + 0.044715 * 1 ^ 3) < 0.797885 * 1 + 0.35677 * (1 * 1 * 1) := by
    nlinarith [hs]
  have htanh := real_tanh_lt_tanh _ _ hargs
  rw [funStd.gelu]
  intro heq
  linarith [htanh]

/-- C4 (amended): the constexpr-variant `gelu` computes exactly
`0.5·z·(1 + tanh(sqrt(2/π)·(z + 0.044715·z³)))` with the kernel's Newton
square root; the std variant instead computes
`0.5·z·(1 + tanh(0.797885·z + 0.35677·z³))`, whose cubic coefficient is ten
times `sqrt(2/π)·0.044715 ≈ 0.0356774`, so at `z = 1` it differs from the
claimed formula. -/
theorem C4_gelu_amended :
    (∀ z : ℝ, funC.gelu z =
      0.5 * z * (1 + Real.tanh (((constexpr_ops.sqrt (2 / constexpr_ops.PI) 15 : ℚ) : ℝ) *
        (z + 0.044715 * z ^ 3)))) ∧
      (∀ z : ℝ, funStd.gelu z =
        0.5 * z * (1 + Real.tanh (0.797885 * z + 0.35677 * z ^ 3))) ∧
      funStd.gelu 1 ≠
        0.5 * 1 * (1 + Real.tanh (((constexpr_ops.sqrt (2 / constexpr_ops.PI) 15 : ℚ) : ℝ) *
          (1 + 0.044715 * 1 ^ 3))) := by
  refine ⟨?_, ?_, ?_⟩
  · intro z
    rw [funC.gelu]
    ring_nf
  · intro z
    rw [funStd.gelu]
    ring_nf
  · have hs : ((constexpr_ops.sqrt (2 / constexpr_ops.PI) 15 : ℚ) : ℝ) ≤ 41 / 50 := by
      refine le_trans (Rat.cast_le.mpr sqrt_two_div_pi_le) ?_
      norm_num
    have hargs : ((constexpr_ops.sqrt (2 / constexpr_ops.PI) 15 : ℚ) : ℝ) *
        (1 + 0.044715 * 1 ^ 3) < 0.797885 * 1 + 0.35677 * (1 * 1 * 1) := by
      nlinarith [hs]
    have htanh := real_tanh_lt_tanh _ _ hargs
    rw [funStd.gelu]
    intro heq
    linarith [htanh]

/-- C5: the kernel `exp` is exactly the 12-term Taylor expansion
`1 + x + x²/2! + … + x¹²/12!`, with a fixed term count. -/
theorem C5_exp_taylor (x : ℚ) :
    constexpr_ops.exp x = (Finset.range 13).sum (fun k => x ^ k / (Nat.factorial k : ℚ)) := by
  rw [exp_poly]
  norm_num [Finset.sum_range_succ, Nat.factorial]

/-- C6: the std-variant `fun::derivative::mish` (a `TODO` placeholder that
computes `z * tanh(sigmoid z)`) returns `0` at `z = 0`, whereas the claimed
closed form `e^z·ω/δ²` evaluates to `3/5 ≠ 0` there; the constexpr-variant
implements the claimed formula exactly. -/
theorem C6_dmish_divergence :
    funStd.derivative.mish 0 = 0 ∧
      (∀ z : ℚ, funC.derivative.mish z =
        constexpr_ops.exp z *
          (constexpr_ops.exp (3 * z) + 4 * constexpr_ops.exp (2 * z) +
            (4 * z + 6) * constexpr_ops.exp z + 4 * (z + 1)) /
          ((constexpr_ops.exp z + 1) ^ 2 + 1) ^ 2) ∧
      (0 : ℝ) ≠ Real.exp 0 *
        (Real.exp (3 * 0) + 4 * Real.exp (2 * 0) + (4 * 0 + 6) * Real.exp 0 + 4 * (0 + 1)) /
        ((Real.exp 0 + 1) ^ 2 + 1) ^ 2 := by
  refine ⟨?_, ?_, ?_⟩
  · rw [funStd.derivative.mish]
    ring
  · intro z
    simp only [funC.derivative.mish]
    ring
  · norm_num [Real.exp_zero]

/-- C7 (amended): `constexpr_ops::pow` computes `x ^ n` by repeated
multiplication for every exponent `n` with `1 ≤ n < 2^32`; `pow (x, 0)` is a
precondition violation and does not yield 1 (see the counterexample). -/
theorem C7_pow_amended (x : ℚ) (n : ℕ) (h1 : 1 ≤ n) (h2 : n < 2 ^ 32) :
    constexpr_ops.pow x n = x ^ n :=
  pow_eq x n h1 h2

/-- Witness for C7 at `x = 3`, `n = 4`. -/
theorem C7_pow_witness :
    (1 ≤ (4 : ℕ)) ∧ ((4 : ℕ) < 2 ^ 32) ∧ constexpr_ops.pow 3 4 = (3 : ℚ) ^ 4 :=
  ⟨by norm_num, by norm_num, C7_pow_amended 3 4 (by norm_num) (by norm_num)⟩

/-- C7 counterexample: `pow (2, 0)` is `2 ^ 2^32` under 32-bit unsigned
wraparound (the loop decrements before testing), not 1. -/
theorem C7_pow_counterexample : constexpr_ops.pow 2 0 ≠ 1 := by
  have hmod : ((0 : ℕ) + (2 ^ 32 - 1)) % 2 ^ 32 = 2 ^ 32 - 1 := by omega
  have hexp : (2 ^ 32 - 1 + 1 : ℕ) = 2 ^ 32 := by omega
  have h : constexpr_ops.pow 2 0 = (2 : ℚ) ^ (2 ^ 32 : ℕ) := by
    rw [constexpr_ops.pow, hmod, powLoop_eq, ← pow_succ', hexp]
  rw [h]
  exact (one_lt_pow₀ (by norm_num : (1 : ℚ) < 2) (by positivity)).ne'

/-- C8: every sign-branching activation uses `z < 0` as its sole branch
predicate and routes `z = 0` to the non-negative branch; in particular
`relu 0 = 0`, `binary_step 0 = 1`, `tanh 0 = 0` and `gaussian 0 = 1`, in
both variants. -/
theorem C8_zero_routing :
    funStd.relu 0 = 0 ∧ funStd.binary_step 0 = 1 ∧ funStd.tanh 0 = 0 ∧
      funStd.gaussian 0 = 1 ∧ funStd.leaky_relu 0 = 0 ∧
      (∀ a : ℝ, funStd.parametric_relu 0 a = 0) ∧ (∀ a : ℝ, funStd.elu 0 a = 0) ∧
      funC.relu 0 = 0 ∧ funC.binary_step 0 = 1 ∧ funC.tanh 0 = 0 ∧ funC.gaussian 0 = 1 := by
  refine ⟨by simp [funStd.relu], by simp [funStd.binary_step], by simp [funStd.tanh],
    by simp [funStd.gaussian], by simp [funStd.leaky_relu],
    fun a => by simp [funStd.parametric_relu], fun a => by simp [funStd.elu],
    by simp [funC.relu], by simp [funC.binary_step], ?_, ?_⟩
  · rw [funC.tanh, constexpr_ops.tanh]
    simp
  · rw [funC.gaussian]
    norm_num [exp_zero_eq]

/-- C9: kernel self-consistency at the distinguished points: `exp 0 = 1`,
`sin 0 = 0`, `cos 0 = 1` and `ln 1 = 0` hold exactly, and the 15-iteration
Newton square root of 4 is within `1e-6` of 2. -/
theorem C9_kernel_self_consistency :
    constexpr_ops.exp 0 = 1 ∧ constexpr_ops.sin 0 = 0 ∧ constexpr_ops.cos 0 = 1 ∧
      |constexpr_ops.sqrt 4 15 - 2| ≤ 1 / 1000000 ∧
      constexpr_ops.ln 1 (1 / 100000) 1 = some 0 := by
  refine ⟨exp_zero_eq, ?_, ?_, ?_, ?_⟩
  · rw [constexpr_ops.sin, pow_zero_base, pow_zero_base, pow_zero_base, pow_zero_base,
      pow_zero_base, pow_zero_base]
    norm_num
  · rw [constexpr_ops.cos, pow_zero_base, pow_zero_base, pow_zero_base, pow_zero_base,
      pow_zero_base, pow_zero_base]
    norm_num
  · obtain ⟨hl, hu⟩ := sqrt_four_bounds
    rw [abs_le]
    constructor
    · linarith
    · have hb : (21523361 : ℚ) / 10761680 - 2 ≤ 1 / 1000000 := by norm_num
      linarith
  · rw [constexpr_ops.ln, show (1 : ℕ) = 0 + 1 from rfl]
    simp only [constexpr_ops.lnLoop, constexpr_ops.lnStep]
    norm_num [exp_zero_eq]

/-- C10: the kernel `cosh` is bounded below by 1 for every input (the odd
Taylor terms of `exp x` and `exp (-x)` cancel, leaving 1 plus even powers),
so the division by `cosh tmp` inside the constexpr-variant GELU derivative
is never a division by zero. -/
theorem C10_cosh_never_zero :
    (∀ x : ℚ, 1 ≤ constexpr_ops.cosh x) ∧
      (∀ z : ℚ, constexpr_ops.cosh (0.0356774 * (z * z * z) + 0.797885 * z) ≠ 0) ∧
      (∀ z : ℚ, funC.derivative.gelu z =
        0.5 * funC.tanh (0.0356774 * (z * z * z) + 0.797885 * z) +
          (0.0535161 * (z * z * z) + 0.398942 * z) /
            constexpr_ops.cosh (0.0356774 * (z * z * z) + 0.797885 * z) + 0.5) := by
  refine ⟨one_le_cosh, ?_, ?_⟩
  · intro z
    exact (lt_of_lt_of_le zero_lt_one (one_le_cosh _)).ne'
  · intro z
    rfl
